import Mathlib

/-!
Verification of the Sia repository excerpts (contract manager startup,
renter upload negotiation, host-db entry weighting, wallet seed scanner)
against their natural-language specification.

The Go source is shallowly embedded: each Go function the claims mention
becomes a Lean definition over explicit state and explicit environments
for its fallible dependencies, and observable actions are recorded in an
event trace so ordering properties can be stated.
-/

namespace Sia

/-! ## Go error values

Errors in the excerpts are built with `errors.New`, `build.ExtendErr`
(which wraps a non-nil error with a context string and maps nil to nil)
and `build.ComposeErrors` (which combines the non-nil errors of its
arguments, yielding nil when all are nil).  `Option GoErr` plays the role
of Go's nullable `error`. -/

inductive GoErr where
  | base (msg : String)
  | extend (msg : String) (e : GoErr)
  | compose (e1 e2 : GoErr)
deriving DecidableEq, Repr

/-- `build.ExtendErr`: nil stays nil, a non-nil error is wrapped with context. -/
def extendErr (msg : String) (e : Option GoErr) : Option GoErr :=
  e.map (GoErr.extend msg)

/-- `build.ComposeErrors` restricted to two arguments: combines the non-nil
errors, nil when both are nil. -/
def composeErrors (e1 e2 : Option GoErr) : Option GoErr :=
  match e1, e2 with
  | none, e2 => e2
  | some e1, none => some e1
  | some e1, some e2 => some (GoErr.compose e1 e2)

/-- `errContains big small` holds when `small` occurs inside `big`,
i.e. `big` was built from `small` by wrapping/composition: the underlying
failure is visible and has not been masked. -/
def errContains : GoErr → GoErr → Bool
  | GoErr.base m, e => GoErr.base m = e
  | GoErr.extend m inner, e => GoErr.extend m inner = e || errContains inner e
  | GoErr.compose a b, e => GoErr.compose a b = e || errContains a e || errContains b e

/-! ## Contract manager startup (`newContractManager`)

`newContractManager` (src/modules/host/contractmanager/contractmanager.go)
initializes dependencies, registers `afterStop` closures on the thread
group, and performs the startup steps in order: `mkdirAll`, `newLogger`,
`loadSettings`, `wal.load`, `loadSectorLocations`, `wal.spawnSyncLoop`,
then the `"erroredStartup"` disruption check.  A deferred closure stops
the thread group whenever the local `err` is non-nil; `tg.Stop` runs the
registered `afterStop` closures in reverse registration order. -/

/-- The three `afterStop` closures registered by `newContractManager`,
in the order the Go source registers them. -/
inductive Closure where
  | destruct
  | loggerClose
  | folderClose
deriving DecidableEq, Repr

/-- Observable actions of `newContractManager` and of the thread group. -/
inductive Event where
  | depsInit
  | register (c : Closure)
  | mkdirAll
  | newLogger
  | loadSettings
  | walLoad
  | loadSectorLocations
  | spawnSyncLoop
  | disruptCheck
  | runClosure (c : Closure)
  | stopped
deriving DecidableEq, Repr

/-- Outcomes of the fallible dependencies of `newContractManager`.
A field `some e` means the corresponding call fails with `e`. -/
structure StartupEnv where
  mkdirErr : Option GoErr
  newLoggerErr : Option GoErr
  loadSettingsErr : Option GoErr
  walLoadErr : Option GoErr
  spawnSyncLoopErr : Option GoErr
  disruptErroredStartup : Bool

/-- The part of the `ContractManager` value the claims observe: the
thread group's list of registered `afterStop` closures, in registration
order. -/
structure CMModel where
  afterStops : List Closure
deriving DecidableEq, Repr

/-- `tg.Stop`: runs the registered `afterStop` closures in reverse
registration order, then the group is stopped. -/
def stopEvents (tg : List Closure) : List Event :=
  (tg.reverse.map Event.runClosure) ++ [Event.stopped]

/-- Result of `newContractManager`: the event trace, the returned
`*ContractManager` (`none` for Go's `nil`), and the returned `error`. -/
structure StartupResult where
  trace : List Event
  cm : Option CMModel
  err : Option GoErr
deriving DecidableEq, Repr

/-- Shallow embedding of `newContractManager`.  On each failure, the
returned error is the step error wrapped by `build.ExtendErr` with the
source's context string (the Go return values are unnamed, so the
deferred recovery closure's reassignment of the local `err` does not
change what is returned), and the deferred closure stops the thread
group, running the `afterStop` closures registered so far in reverse
order. -/
def newContractManager (env : StartupEnv) : StartupResult :=
  let tg : List Closure := [Closure.destruct]
  let tr : List Event := [Event.depsInit, Event.register Closure.destruct]
  let tr := tr ++ [Event.mkdirAll]
  match env.mkdirErr with
  | some e =>
      ⟨tr ++ stopEvents tg, none,
        some (GoErr.extend "error while creating the persist directory for the contract manager" e)⟩
  | none =>
    let tr := tr ++ [Event.newLogger]
    match env.newLoggerErr with
    | some e =>
        ⟨tr ++ stopEvents tg, none,
          some (GoErr.extend "error while creating the logger for the contract manager" e)⟩
    | none =>
      let tg := tg ++ [Closure.loggerClose]
      let tr := tr ++ [Event.register Closure.loggerClose, Event.loadSettings]
      match env.loadSettingsErr with
      | some e =>
          ⟨tr ++ stopEvents tg, none,
            some (GoErr.extend "error while loading contract manager atomic data" e)⟩
      | none =>
        let tr := tr ++ [Event.walLoad]
        match env.walLoadErr with
        | some e =>
            ⟨tr ++ stopEvents tg, none,
              some (GoErr.extend "error while loading the WAL at startup" e)⟩
        | none =>
          let tg := tg ++ [Closure.folderClose]
          let tr := tr ++ [Event.register Closure.folderClose,
                           Event.loadSectorLocations, Event.spawnSyncLoop]
          match env.spawnSyncLoopErr with
          | some e =>
              ⟨tr ++ stopEvents tg, none,
                some (GoErr.extend "error while spawning contract manager sync loop" e)⟩
          | none =>
            let tr := tr ++ [Event.disruptCheck]
            if env.disruptErroredStartup then
              ⟨tr ++ stopEvents tg, none, some (GoErr.base "startup disrupted")⟩
            else
              ⟨tr, some ⟨tg⟩, none⟩

/-- `ContractManager.Close` calls `cm.tg.Stop()`: the registered
`afterStop` closures run in reverse registration order. -/
def closeRun (cm : CMModel) : List Event :=
  stopEvents cm.afterStops

/-- `before a b l`: `a` occurs in `l` strictly before the first
occurrence of `b`. -/
def before (a b : Event) (l : List Event) : Prop :=
  a ∈ l.takeWhile (fun e => e ≠ b)

instance (a b : Event) (l : List Event) : Decidable (before a b l) := by
  unfold before; infer_instance

/-! ## `hostUploader.Close` (src/modules/renter/negotiate.go)

The method sends an empty revision (result discarded), closes the
connection (result discarded), submits `lastTxn` to the transaction pool
via `AcceptTransactionSet`, runs an `if err != nil { }` statement with an
empty body, and returns `err`. -/

/-- Observable actions of `hostUploader.Close`. -/
inductive CloseEvent where
  | sendEmptyRevision
  | connClose
  | acceptLastTxn
deriving DecidableEq, Repr

/-- Shallow embedding of `hostUploader.Close`.  `acceptResult` is the
value returned by `renter.tpool.AcceptTransactionSet([lastTxn])`.  The
source's `if err != nil { }` has an empty body, so it has no effect; the
method then returns `err` itself. -/
def hostUploaderClose (acceptResult : Option GoErr) : List CloseEvent × Option GoErr :=
  let events := [CloseEvent.sendEmptyRevision, CloseEvent.connClose, CloseEvent.acceptLastTxn]
  let err := acceptResult
  (events, err)

/-! ## `negotiateContract` file-contract id (src/modules/renter/negotiate.go)

The part of `negotiateContract` the claim is about: the transaction
builder is started, funded with the contract payout, the file contract is
appended with `AddFileContract`, `View` yields the built transaction, and
the contract id is computed as `txn.FileContractID(0)`. -/

/-- A file contract, abstracted: only the payout matters to the funding
step, and equality of contracts matters to the id question. -/
structure FileContract where
  payout : Nat
  windowStart : Nat
deriving DecidableEq, Repr

/-- A built transaction as `txnBuilder.View` returns it: the list of
file contracts it carries (other fields are irrelevant to the claims). -/
structure Transaction where
  fileContracts : List FileContract
deriving DecidableEq, Repr

/-- `types.Transaction.FileContractID(i)` is a collision-resistant hash
of the transaction together with the index `i`; the embedding models the
hash as the pair itself, which is injective. -/
def FileContractID (txn : Transaction) (i : Nat) : Transaction × Nat :=
  (txn, i)

/-- The wallet's transaction builder: the siacoin balance available to
`FundSiacoins` and the file contracts accumulated so far. -/
structure TxnBuilder where
  balance : Nat
  fileContracts : List FileContract
deriving DecidableEq, Repr

/-- `txnBuilder.FundSiacoins(amount)`: fails when the wallet cannot cover
the amount, otherwise debits it. -/
def fundSiacoins (b : TxnBuilder) (amount : Nat) : Option TxnBuilder :=
  if amount ≤ b.balance then some { b with balance := b.balance - amount } else none

/-- `txnBuilder.AddFileContract(fc)` appends `fc` to the builder's
file-contract list. -/
def addFileContract (b : TxnBuilder) (fc : FileContract) : TxnBuilder :=
  { b with fileContracts := b.fileContracts ++ [fc] }

/-- `txnBuilder.View()`: the transaction built so far. -/
def viewTxn (b : TxnBuilder) : Transaction :=
  ⟨b.fileContracts⟩

/-- The renter-side record `hu.contract` created at the end of
`negotiateContract`. -/
structure RenterFileContract where
  id : Transaction × Nat
  windowStart : Nat
deriving DecidableEq, Repr

/-- Outcomes of the fallible steps of `negotiateContract` that follow
the id computation (network writes/reads, host acceptance, transaction
pool submission).  `true` means the step succeeds. -/
structure NegotiateEnv where
  laterStepsOk : Bool

/-- Shallow embedding of the contract-id path of `negotiateContract`:
fund the payout, add the file contract, view the built transaction,
compute `fcid := txn.FileContractID(0)`, and on success of the remaining
steps record `hu.contract` with `ID = fcid`.  Returns `none` when funding
or a later step fails (the claim concerns the id of a successfully
created contract). -/
def negotiateContract (env : NegotiateEnv) (b : TxnBuilder) (fc : FileContract) :
    Option RenterFileContract :=
  match fundSiacoins b fc.payout with
  | none => none
  | some b1 =>
    let b2 := addFileContract b1 fc
    let txn := viewTxn b2
    let fcid := FileContractID txn 0
    if env.laterStepsOk then
      some { id := fcid, windowStart := fc.windowStart }
    else
      none

/-- The transaction that `txnBuilder.View` returns in `negotiateContract`
when funding succeeds with builder `b` and contract `fc`. -/
def negotiatedTxn (b : TxnBuilder) (fc : FileContract) : Option Transaction :=
  (fundSiacoins b fc.payout).map (fun b1 => viewTxn (addFileContract b1 fc))

/-! ## `entryWeight` (src/modules/hostdb excerpt in negotiate.go)

`consensus.Currency` wraps a `big.Int`; `Sign`, `Mul`, `Div` (Euclidean
division, floor for a positive divisor) and `Sqrt` (integer square root)
are the `big.Int` operations.  The embedding uses `Int` with `Nat.sqrt`
for the square root of a non-negative value, matching `big.Int` on every
value `entryWeight` ever divides (both operands are positive after the
replacements). -/

/-- A host-db entry; `Currency` values are modelled as `Int` (a
`big.Int` may be non-positive, which is exactly what `Sign() <= 0`
detects). -/
structure HostEntry where
  price : Int
  collateral : Int
  freeze : Int
deriving DecidableEq, Repr

/-- The floor square root of a natural number: the largest `k` with
`k * k ≤ n` (every such `k` is at most `n`, so searching `0..n`
suffices). -/
def floorSqrt (n : Nat) : Nat :=
  ((List.range (n + 1)).filter (fun k => k * k ≤ n)).foldr max 0

/-- `Currency.Sqrt`: integer square root (floor) of a non-negative
`big.Int`. -/
def currencySqrt (x : Int) : Int :=
  Int.ofNat (floorSqrt x.toNat)

/-- Shallow embedding of `entryWeight`: each of `Price`, `Collateral`,
`Freeze` with `Sign() <= 0` is replaced by the currency 1, then the
weight is `Freeze * Collateral / sqrt(Price)` with integer division. -/
def entryWeight (entry : HostEntry) : Int :=
  let price := if entry.price ≤ 0 then 1 else entry.price
  let collateral := if entry.collateral ≤ 0 then 1 else entry.collateral
  let freeze := if entry.freeze ≤ 0 then 1 else entry.freeze
  freeze * collateral / currencySqrt price

/-- The divisor used by `entryWeight` after the replacements. -/
def entryWeightDivisor (entry : HostEntry) : Int :=
  currencySqrt (if entry.price ≤ 0 then 1 else entry.price)

/-! ## Wallet seed scanner (src/modules/wallet/scan.go)

The scanner state mirrors the Go `seedScanner`: a map from unlock hash
to seed index (`keys`, a Go map embedded as an association list with
insert-or-replace semantics), the largest seed index seen on-chain, and
the map of scanned siacoin outputs.  Unlock hashes, output ids and
currency values are `Nat`.

Key derivation (`generateKeys(seed, start, n)`, the package-level
function) lives outside the excerpt; the embedding abstracts it as a
function `kh : Nat → Nat` from seed index to unlock hash, passed to every
definition that derives keys. -/

/-- Go's `scannedOutput`. -/
structure ScannedOutput where
  id : Nat
  value : Nat
  seedIndex : Nat
deriving DecidableEq, Repr

/-- Go's `seedScanner` (the `seed` itself is abstracted into `kh`). -/
structure SeedScanner where
  dustThreshold : Nat
  keys : List (Nat × Nat)
  largestIndexSeen : Nat
  siacoinOutputs : List (Nat × ScannedOutput)
deriving DecidableEq, Repr

/-- Association-list lookup, the embedding of Go's `v, ok := m[k]`. -/
def alookup {α β : Type} [DecidableEq α] (l : List (α × β)) (k : α) : Option β :=
  (l.find? (fun p => p.1 = k)).map (fun p => p.2)

/-- Association-list insert-or-replace, the embedding of Go's
`m[k] = v`: the length of the list is the size of the Go map as long as
first components stay distinct, which this operation preserves. -/
def ainsert {α β : Type} [DecidableEq α] (l : List (α × β)) (k : α) (v : β) : List (α × β) :=
  if l.any (fun p => p.1 = k) then
    l.map (fun p => if p.1 = k then (k, v) else p)
  else
    l ++ [(k, v)]

/-- Association-list delete, the embedding of Go's `delete(m, k)`. -/
def adelete {α β : Type} [DecidableEq α] (l : List (α × β)) (k : α) : List (α × β) :=
  l.filter (fun p => p.1 ≠ k)

/-- `seedScanner.numKeys`: the size of the `keys` map. -/
def SeedScanner.numKeys (s : SeedScanner) : Nat :=
  s.keys.length

/-- `seedScanner.generateKeys(n)`: for `i < n`, insert the key derived at
seed index `initialProgress + i` mapping its unlock hash to that index. -/
def SeedScanner.generateKeys (kh : Nat → Nat) (s : SeedScanner) (n : Nat) : SeedScanner :=
  let initialProgress := s.numKeys
  { s with
    keys := (List.range n).foldl
      (fun ks i => ainsert ks (kh (initialProgress + i)) (initialProgress + i)) s.keys }

/-- A `modules.SiacoinOutputDiff`: `apply = true` embeds
`modules.DiffApply`, `false` embeds `modules.DiffRevert`. -/
structure SiacoinOutputDiff where
  apply : Bool
  id : Nat
  unlockHash : Nat
  value : Nat
deriving DecidableEq, Repr

/-- A `modules.SiafundOutputDiff` (only the unlock hash matters to the
scanner). -/
structure SiafundOutputDiff where
  id : Nat
  unlockHash : Nat
deriving DecidableEq, Repr

/-- A `modules.ConsensusChange` as the scanner consumes it. -/
structure ConsensusChange where
  siacoinOutputDiffs : List SiacoinOutputDiff
  siafundOutputDiffs : List SiafundOutputDiff
deriving DecidableEq, Repr

/-- The body of the first loop of `ProcessConsensusChange`, for one
siacoin output diff: an applied output whose unlock hash is a known key
and whose value strictly exceeds the dust threshold is recorded; a
reverted output with a known unlock hash is deleted. -/
def processDiff (s : SeedScanner) (d : SiacoinOutputDiff) : SeedScanner :=
  if d.apply then
    match alookup s.keys d.unlockHash with
    | some index =>
        if s.dustThreshold < d.value then
          { s with siacoinOutputs :=
              ainsert s.siacoinOutputs d.id ⟨d.id, d.value, index⟩ }
        else s
    | none => s
  else
    match alookup s.keys d.unlockHash with
    | some _ => { s with siacoinOutputs := adelete s.siacoinOutputs d.id }
    | none => s

/-- The second and third loops of `ProcessConsensusChange`: raise
`largestIndexSeen` to any known key index appearing in the diffs. -/
def updateLargestIndex (s : SeedScanner) (cc : ConsensusChange) : SeedScanner :=
  let s1 := cc.siacoinOutputDiffs.foldl
    (fun t d =>
      match alookup t.keys d.unlockHash with
      | some index => if t.largestIndexSeen < index then { t with largestIndexSeen := index } else t
      | none => t) s
  cc.siafundOutputDiffs.foldl
    (fun t d =>
      match alookup t.keys d.unlockHash with
      | some index => if t.largestIndexSeen < index then { t with largestIndexSeen := index } else t
      | none => t) s1

/-- `seedScanner.ProcessConsensusChange`. -/
def SeedScanner.processConsensusChange (s : SeedScanner) (cc : ConsensusChange) : SeedScanner :=
  updateLargestIndex (cc.siacoinOutputDiffs.foldl processDiff s) cc

/-- The environment of `seedScanner.scan`: the blockchain that
`ConsensusSetSubscribe` replays into the subscriber (a fixed list of
consensus changes, replayed from the beginning on every subscription),
and whether the `k`-th `ConsensusSetSubscribe` call fails. -/
structure ScanEnv where
  chain : List ConsensusChange
  subscribeErr : Nat → Option GoErr

/-- Result of `scan`: `ok` for a nil return, `maxKeys` for `errMaxKeys`,
`subError e` when `ConsensusSetSubscribe` failed with `e`, and
`outOfFuel` when the fuel parameter of the embedding ran out (proved
unreachable with enough fuel). -/
inductive ScanResult where
  | ok
  | maxKeys
  | subError (e : GoErr)
  | outOfFuel
deriving DecidableEq, Repr

/-- The loop of `seedScanner.scan`, with explicit fuel.  `iter` counts
subscriptions, `numKeys` is the loop-local batch-size variable of the Go
source.  Each iteration generates `numKeys` fresh keys, subscribes
(replaying the whole chain through `ProcessConsensusChange`), returns nil
when fewer than half of the generated keys have been seen, otherwise
quadruples the batch size, capping it at `maxScanKeys - s.numKeys()`. -/
def scanLoop (kh : Nat → Nat) (env : ScanEnv) (maxScanKeys : Nat) :
    Nat → Nat → Nat → SeedScanner → ScanResult × SeedScanner
  | 0, _, _, s => (ScanResult.outOfFuel, s)
  | fuel + 1, iter, numKeys, s =>
    if s.numKeys < maxScanKeys then
      let s := s.generateKeys kh numKeys
      match env.subscribeErr iter with
      | some e => (ScanResult.subError e, s)
      | none =>
        let s := env.chain.foldl SeedScanner.processConsensusChange s
        if s.largestIndexSeen < s.numKeys / 2 then
          (ScanResult.ok, s)
        else
          let numKeys := numKeys * 4
          let numKeys := if maxScanKeys - s.numKeys < numKeys then maxScanKeys - s.numKeys else numKeys
          scanLoop kh env maxScanKeys fuel (iter + 1) numKeys s
    else
      (ScanResult.maxKeys, s)

/-- `seedScanner.scan`, run with fuel `maxScanKeys + 1` (shown sufficient
below) and an initial batch size of `numInitialKeys`. -/
def SeedScanner.scan (kh : Nat → Nat) (env : ScanEnv) (maxScanKeys numInitialKeys : Nat)
    (s : SeedScanner) : ScanResult × SeedScanner :=
  scanLoop kh env maxScanKeys (maxScanKeys + 1) 0 numInitialKeys s

/-- The `keys` map of a scanner whose first `m` seed indices have been
generated in order from the derivation function `kh`. -/
def canonKeys (kh : Nat → Nat) (m : Nat) : List (Nat × Nat) :=
  (List.range m).map (fun j => (kh j, j))

/-- Go's `build.Release` values. -/
inductive Release where
  | dev
  | standard
  | testing
deriving DecidableEq, Repr

/-- `numInitialKeys`, per release. -/
def numInitialKeys : Release → Nat
  | Release.dev => 10000
  | Release.standard => 1000000
  | Release.testing => 1000

/-- `maxScanKeys`, per release. -/
def maxScanKeys : Release → Nat
  | Release.dev => 1000000
  | Release.standard => 100000000
  | Release.testing => 100000

/-! ## Contract manager sector store

Modelled from the spec: the sector-store operations of the contract
manager façade (`addSector`, `addSectorBatch`, `removeSector`,
`readSector`, `addStorageFolder`, `resizeStorageFolder`,
`removeStorageFolder`, `storageFolders`) are not part of the source
excerpt (only `contractmanager.go`'s struct, startup and `Close` are);
they are modelled from spec §3 (data model), §4.3 (storage folder, slot
placement, shrink/remove evacuation) and §4.6 (façade operations).
Collision-resistant hashes (the content Merkle root and the salted
sector id) are modelled as injective functions; durability, the WAL and
locking are invisible to the claims and elided. -/

/-- The fixed sector size.  Modelled from the spec: "a compile-time
constant of the host, e.g. 4 MiB"; the model uses a small value so that
concrete states stay small. -/
def sectorSize : Nat := 4

/-- Storage-folder capacity granularity.  Modelled from the spec:
"capacity is a multiple of the granularity (e.g. 64 slots)"; the model
uses a small value. -/
def storageFolderGranularity : Nat := 2

/-- Sector payloads are byte lists. -/
abbrev SectorData := List Nat

/-- Modelled from the spec: the content Merkle root of a payload, a
collision-resistant hash modelled as an injective function (the
identity on payloads). -/
def merkleRoot (data : SectorData) : SectorData :=
  data

/-- Modelled from the spec: the 12-byte sector id, "a keyed hash of the
sector's content Merkle root using a per-host random `sectorSalt`";
the keyed hash is modelled as the injective pairing of salt and root. -/
def sectorID (salt : Nat) (root : SectorData) : Nat × SectorData :=
  (salt, root)

/-- Sector ids as produced by `sectorID`. -/
abbrev SID := Nat × SectorData

/-- Modelled from the spec: a sector location
`{folderID: u16, index: u32, count: u16}`. -/
structure SectorLocation where
  storageFolder : Nat
  index : Nat
  count : Nat
deriving DecidableEq, Repr

/-- Modelled from the spec: a storage folder with its path, usage bitmap
(one bit per slot), slot contents (the sector data file) and the
open/closed state of its file handles.  Capacity is the length of the
bitmap. -/
structure StorageFolder where
  path : String
  usage : List Bool
  slots : List (Option SectorData)
  filesOpen : Bool
deriving DecidableEq, Repr

/-- Modelled from the spec: the contract manager state visible to the
sector-store claims: the immutable `sectorSalt`, the storage folders
keyed by `u16` folder id, and the sector-location index. -/
structure CMState where
  sectorSalt : Nat
  nextFolderID : Nat
  storageFolders : List (Nat × StorageFolder)
  sectorLocations : List (SID × SectorLocation)
deriving DecidableEq, Repr

/-- A deterministic fold of a sector id into a probe start, standing in
for `hash(id)` in the spec's slot-placement rule. -/
def sidHash (id : SID) : Nat :=
  id.2.foldl (fun a b => a + b) id.1

/-- Rotate a list left by `n` positions (a deterministic starting point
for rejection sampling / probing). -/
def rotateBy {α : Type} (l : List α) (n : Nat) : List α :=
  l.drop (n % l.length) ++ l.take (n % l.length)

/-- Modelled from the spec: linear probing within a folder, "starting at
`hash(id) mod capacity`, linear-probing over the usage bitmap until an
unset bit is found". -/
def findFreeSlot (usage : List Bool) (start : Nat) : Option Nat :=
  ((List.range usage.length).map (fun k => (start + k) % usage.length)).find?
    (fun j => usage.getD j true = false)

/-- Whether a folder has at least one free slot. -/
def hasFreeSlot (f : StorageFolder) : Bool :=
  f.usage.any (fun b => !b)

/-- Modelled from the spec: the folder choice for a new sector, derived
deterministically from the sector id, skipping folders with zero free
slots ("rejection-sample folders with zero free slots"; the free-slot
weighting is abstracted into a deterministic rotation). -/
def pickFolder (folders : List (Nat × StorageFolder)) (h : Nat) : Option Nat :=
  ((rotateBy folders h).find? (fun p => hasFreeSlot p.2)).map (fun p => p.1)

/-- As `pickFolder`, restricted to folders other than `avoid` (a
sector evacuated by shrink/remove must move "into another folder"). -/
def pickOtherFolder (folders : List (Nat × StorageFolder)) (avoid : Nat) (h : Nat) :
    Option Nat :=
  pickFolder (folders.filter (fun p => p.1 ≠ avoid)) h

/-- Update the folder stored under id `k`. -/
def aset {α β : Type} [DecidableEq α] (l : List (α × β)) (k : α) (v : β) : List (α × β) :=
  l.map (fun p => if p.1 = k then (k, v) else p)

/-- Increment the reference count of the location stored under `id`
(the same content uploaded again occupies the same slot). -/
def bumpCount (l : List (SID × SectorLocation)) (id : SID) : List (SID × SectorLocation) :=
  l.map (fun p => if p.1 = id then (p.1, { p.2 with count := p.2.count + 1 }) else p)

/-- Decrement the reference count of the location stored under `id`. -/
def dropCount (l : List (SID × SectorLocation)) (id : SID) : List (SID × SectorLocation) :=
  l.map (fun p => if p.1 = id then (p.1, { p.2 with count := p.2.count - 1 }) else p)

/-- Modelled from the spec: `addSector(root, data)` (§4.6).  Fails on a
size mismatch; if the id is already present the reference count is
incremented (one physical slot per content); otherwise a folder and slot
are chosen by salted placement, the payload is written there, and the
location index gains the new entry with count 1.  Returns `none` on
"size mismatch" or "storage full". -/
def addSector (st : CMState) (root : SectorData) (data : SectorData) :
    Option (CMState × SID) :=
  if data.length ≠ sectorSize then none
  else
    let id := sectorID st.sectorSalt root
    match alookup st.sectorLocations id with
    | some _ =>
        some ({ st with sectorLocations := bumpCount st.sectorLocations id }, id)
    | none =>
      match pickFolder st.storageFolders (sidHash id) with
      | none => none
      | some fid =>
        match alookup st.storageFolders fid with
        | none => none
        | some f =>
          match findFreeSlot f.usage (sidHash id) with
          | none => none
          | some j =>
            let f' := { f with usage := f.usage.set j true, slots := f.slots.set j (some data) }
            some ({ st with
                      storageFolders := aset st.storageFolders fid f',
                      sectorLocations := st.sectorLocations ++ [(id, ⟨fid, j, 1⟩)] }, id)

/-- Modelled from the spec: `readSector(id)` (§4.6): look the id up in
the location index and read the payload from the folder slot.  Returns
`none` for "unknown sector" or a missing slot. -/
def readSector (st : CMState) (id : SID) : Option SectorData :=
  match alookup st.sectorLocations id with
  | none => none
  | some loc =>
    match alookup st.storageFolders loc.storageFolder with
    | none => none
    | some f =>
      match f.slots.getD loc.index none with
      | some d => some d
      | none => none

/-- Modelled from the spec: `removeSector(id)` (§4.6): decrement the
reference count; free the slot only when the count reaches zero.
Returns `none` for "unknown sector". -/
def removeSector (st : CMState) (id : SID) : Option CMState :=
  match alookup st.sectorLocations id with
  | none => none
  | some loc =>
    if 1 < loc.count then
      some { st with sectorLocations := dropCount st.sectorLocations id }
    else
      match alookup st.storageFolders loc.storageFolder with
      | none => none
      | some f =>
        let f' := { f with usage := f.usage.set loc.index false,
                           slots := f.slots.set loc.index none }
        some { st with
                 storageFolders := aset st.storageFolders loc.storageFolder f',
                 sectorLocations := adelete st.sectorLocations id }

/-- Modelled from the spec: `addStorageFolder(path, capacity)` (§4.6):
fails on "path in use" or "capacity not aligned", otherwise creates an
all-free folder under a fresh id. -/
def addStorageFolder (st : CMState) (path : String) (capacity : Nat) : Option CMState :=
  if st.storageFolders.any (fun p => p.2.path = path) then none
  else if capacity % storageFolderGranularity ≠ 0 ∨ capacity = 0 then none
  else
    some { st with
             nextFolderID := st.nextFolderID + 1,
             storageFolders := st.storageFolders ++
               [(st.nextFolderID,
                 ⟨path, List.replicate capacity false, List.replicate capacity none, true⟩)] }

/-- Modelled from the spec: relocate one sector (evacuated from folder
`srcFid`) "into another folder": pick a destination folder with a free
slot among the other folders, move the payload, and repoint the location
entry.  Returns `none` when no destination exists. -/
def relocate (st : CMState) (srcFid : Nat) (p : SID × SectorLocation) : Option CMState :=
  match alookup st.storageFolders srcFid with
  | none => none
  | some src =>
    match src.slots.getD p.2.index none with
    | none => none
    | some data =>
      match pickOtherFolder st.storageFolders srcFid (sidHash p.1) with
      | none => none
      | some di =>
        match alookup st.storageFolders di with
        | none => none
        | some dst =>
          match findFreeSlot dst.usage (sidHash p.1) with
          | none => none
          | some j =>
            let src' := { src with usage := src.usage.set p.2.index false,
                                   slots := src.slots.set p.2.index none }
            let dst' := { dst with usage := dst.usage.set j true,
                                   slots := dst.slots.set j (some data) }
            some { st with
                     storageFolders := aset (aset st.storageFolders srcFid src') di dst',
                     sectorLocations := st.sectorLocations.map
                       (fun q => if q.1 = p.1 then (q.1, ⟨di, j, q.2.count⟩) else q) }

/-- The location entries of folder `fid` whose slot index lies at or
beyond `newCap` (the region departing in a shrink; `newCap = 0` selects
every sector of the folder). -/
def evacuees (st : CMState) (fid newCap : Nat) : List (SID × SectorLocation) :=
  st.sectorLocations.filter (fun p => p.2.storageFolder = fid ∧ newCap ≤ p.2.index)

/-- Modelled from the spec: shrink folder `fid` to `newCap`, first
relocating every occupied slot of the departing region; "if no
destination can be found for some sector, the operation fails ... and no
state changes". -/
def shrinkFolder (st : CMState) (fid newCap : Nat) : Option CMState :=
  match (evacuees st fid newCap).foldlM (fun acc p => relocate acc fid p) st with
  | none => none
  | some st' =>
    match alookup st'.storageFolders fid with
    | none => none
    | some f =>
      let f' := { f with usage := f.usage.take newCap, slots := f.slots.take newCap }
      some { st' with storageFolders := aset st'.storageFolders fid f' }

/-- Modelled from the spec: grow folder `fid` to `newCap` by appending
all-free slots. -/
def growFolder (st : CMState) (fid newCap : Nat) : Option CMState :=
  match alookup st.storageFolders fid with
  | none => none
  | some f =>
    let f' := { f with usage := f.usage ++ List.replicate (newCap - f.usage.length) false,
                       slots := f.slots ++ List.replicate (newCap - f.usage.length) none }
    some { st with storageFolders := aset st.storageFolders fid f' }

/-- Modelled from the spec: `resizeStorageFolder(id, newCap)` (§4.6). -/
def resizeStorageFolder (st : CMState) (fid newCap : Nat) : Option CMState :=
  if newCap % storageFolderGranularity ≠ 0 ∨ newCap = 0 then none
  else
    match alookup st.storageFolders fid with
    | none => none
    | some f =>
      if f.usage.length ≤ newCap then growFolder st fid newCap
      else shrinkFolder st fid newCap

/-- Modelled from the spec: `removeStorageFolder(id, force)` (§4.6):
evacuate every sector of the folder, then drop it; with `force` the
folder and its location entries are dropped without evacuation. -/
def removeStorageFolder (st : CMState) (fid : Nat) (force : Bool) : Option CMState :=
  match alookup st.storageFolders fid with
  | none => none
  | some _ =>
    if force then
      some { st with
               storageFolders := adelete st.storageFolders fid,
               sectorLocations := st.sectorLocations.filter (fun p => p.2.storageFolder ≠ fid) }
    else
      match (evacuees st fid 0).foldlM (fun acc p => relocate acc fid p) st with
      | none => none
      | some st' => some { st' with storageFolders := adelete st'.storageFolders fid }

/-- `Close` (src/modules/host/contractmanager/contractmanager.go) stops
the thread group, whose `afterStop` closures close every storage
folder's metadata and sector file handles. -/
def closeCM (st : CMState) : CMState :=
  let folders := st.storageFolders.map (fun p => (p.1, { p.2 with filesOpen := false }))
  { st with storageFolders := folders }

/-- The public operations of the contract manager façade (§4.6),
including `Close`. -/
inductive CMOp where
  | addSector (root data : SectorData)
  | addSectorBatch (items : List (SectorData × SectorData))
  | removeSector (id : SID)
  | readSector (id : SID)
  | addStorageFolder (path : String) (capacity : Nat)
  | resizeStorageFolder (fid newCap : Nat)
  | removeStorageFolder (fid : Nat) (force : Bool)
  | storageFolders
  | close

/-- The state transition of one façade operation: a failing operation
leaves the state unchanged, read-only operations (`readSector`,
`storageFolders`) do not touch it. -/
def applyOp (op : CMOp) (st : CMState) : CMState :=
  match op with
  | .addSector root data => ((addSector st root data).map Prod.fst).getD st
  | .addSectorBatch items =>
      items.foldl (fun acc it => ((addSector acc it.1 it.2).map Prod.fst).getD acc) st
  | .removeSector id => (removeSector st id).getD st
  | .readSector _ => st
  | .addStorageFolder p c => (addStorageFolder st p c).getD st
  | .resizeStorageFolder fid c => (resizeStorageFolder st fid c).getD st
  | .removeStorageFolder fid force => (removeStorageFolder st fid force).getD st
  | .storageFolders => st
  | .close => closeCM st

/-- Well-formedness of a contract manager state: folder ids are
distinct, each folder's data file matches its bitmap in length, and
every location entry points into an existing folder at a populated slot
holding the payload whose salted Merkle-root hash is the entry's id. -/
def WF (st : CMState) : Prop :=
  (st.storageFolders.map Prod.fst).Nodup ∧
  (∀ p ∈ st.storageFolders, p.2.slots.length = p.2.usage.length) ∧
  (∀ id loc, alookup st.sectorLocations id = some loc →
    ∃ f d, alookup st.storageFolders loc.storageFolder = some f ∧
      f.slots.getD loc.index none = some d ∧
      id = sectorID st.sectorSalt (merkleRoot d))

/-! ## Theorems -/

/-- Any member of a list of naturals is bounded by the `foldr max 0` of
the list. -/
theorem le_foldr_max (a : Nat) (l : List Nat) (h : a ∈ l) : a ≤ l.foldr max 0 := by
  induction l with
  | nil => cases h
  | cons b t ih =>
    rcases List.mem_cons.mp h with rfl | ht
    · exact le_max_left _ _
    · exact le_trans (ih ht) (le_max_right _ _)

/-- The floor square root of a positive number is positive. -/
theorem one_le_floorSqrt (n : Nat) (h : 1 ≤ n) : 1 ≤ floorSqrt n := by
  apply le_foldr_max
  rw [List.mem_filter]
  refine ⟨List.mem_range.mpr ?_, ?_⟩
  · omega
  · simpa using h

/-- `alookup` on a cons. -/
theorem alookup_cons {α β : Type} [DecidableEq α] (p : α × β) (l : List (α × β)) (k : α) :
    alookup (p :: l) k = if p.1 = k then some p.2 else alookup l k := by
  by_cases h : p.1 = k
  · simp [alookup, List.find?_cons_of_pos, h]
  · simp [alookup, List.find?_cons_of_neg, h]

/-- A key freshly appended to an association list is found. -/
theorem alookup_append_fresh {α β : Type} [DecidableEq α] (l : List (α × β)) (k : α) (v : β)
    (h : alookup l k = none) : alookup (l ++ [(k, v)]) k = some v := by
  induction l with
  | nil => rw [List.nil_append, alookup_cons, if_pos rfl]
  | cons p t ih =>
    rw [alookup_cons] at h
    rw [List.cons_append, alookup_cons]
    by_cases hp : p.1 = k
    · rw [if_pos hp] at h
      exact Option.noConfusion h
    · rw [if_neg hp] at h
      rw [if_neg hp]
      exact ih h

/-- Replacing the values stored under key `k` does not change lookups at
other keys. -/
theorem alookup_map_replace_ne {α β : Type} [DecidableEq α] (l : List (α × β)) (k k' : α)
    (v : β) (h : k' ≠ k) :
    alookup (l.map (fun p => if p.1 = k then (k, v) else p)) k' = alookup l k' := by
  induction l with
  | nil => rfl
  | cons p t ih =>
    rw [List.map_cons, alookup_cons, alookup_cons]
    by_cases hp : p.1 = k
    · have h1 : ¬((if p.1 = k then (k, v) else p).1 = k') := by
        rw [if_pos hp]
        exact fun e => h e.symm
      have h2 : ¬(p.1 = k') := by
        rw [hp]
        exact fun e => h e.symm
      rw [if_neg h1, if_neg h2]
      exact ih
    · rw [if_neg hp]
      by_cases hk : p.1 = k'
      · rw [if_pos hk, if_pos hk]
      · rw [if_neg hk, if_neg hk]
        exact ih

/-- `alookup` after `ainsert` at a different key. -/
theorem alookup_ainsert_ne {α β : Type} [DecidableEq α] (l : List (α × β)) (k k' : α) (v : β)
    (h : k' ≠ k) : alookup (ainsert l k v) k' = alookup l k' := by
  unfold ainsert
  split
  · exact alookup_map_replace_ne l k k' v h
  · rename_i hany
    clear hany
    induction l with
    | nil =>
      rw [List.nil_append, alookup_cons, if_neg (fun e => h e.symm)]
    | cons p t ih =>
      rw [List.cons_append, alookup_cons, alookup_cons]
      by_cases hp : p.1 = k'
      · rw [if_pos hp, if_pos hp]
      · rw [if_neg hp, if_neg hp]
        exact ih

/-- `alookup` after `adelete`. -/
theorem alookup_adelete {α β : Type} [DecidableEq α] (l : List (α × β)) (k k' : α) :
    alookup (adelete l k) k' = if k' = k then none else alookup l k' := by
  induction l with
  | nil => simp [adelete, alookup]
  | cons p t ih =>
    unfold adelete at ih ⊢
    rw [List.filter_cons]
    by_cases hp : p.1 = k
    · rw [if_neg (by simp [hp]), ih]
      by_cases hk : k' = k
      · rw [if_pos hk, if_pos hk]
      · rw [if_neg hk, if_neg hk, alookup_cons]
        have h2 : ¬(p.1 = k') := by
          rw [hp]
          exact fun e => hk e.symm
        rw [if_neg h2]
    · rw [if_pos (by simp [hp]), alookup_cons, alookup_cons, ih]
      by_cases hk : k' = k
      · rw [if_pos hk, if_pos hk]
        have h2 : ¬(p.1 = k') := by
          rw [hk]
          exact hp
        rw [if_neg h2]
      · rw [if_neg hk, if_neg hk]

/-- `alookup` finds a member pair. -/
theorem alookup_mem {α β : Type} [DecidableEq α] (l : List (α × β)) (k : α) (v : β)
    (h : alookup l k = some v) : (k, v) ∈ l := by
  induction l with
  | nil => simp [alookup] at h
  | cons p t ih =>
    rw [alookup_cons] at h
    by_cases hp : p.1 = k
    · rw [if_pos hp] at h
      injection h with h
      subst h
      subst hp
      exact List.mem_cons_self _ _
    · rw [if_neg hp] at h
      exact List.mem_cons_of_mem _ (ih h)

/-- `alookup` after `aset` replaces the found value. -/
theorem alookup_aset {α β : Type} [DecidableEq α] (l : List (α × β)) (k : α) (v w : β)
    (h : alookup l k = some w) : alookup (aset l k v) k = some v := by
  induction l with
  | nil => simp [alookup] at h
  | cons p t ih =>
    rw [alookup_cons] at h
    unfold aset
    rw [List.map_cons, alookup_cons]
    by_cases hp : p.1 = k
    · rw [if_pos hp]
      simp
    · rw [if_neg hp] at h
      rw [if_neg hp, if_neg hp]
      exact ih h

/-- A fold whose step preserves a projection preserves it globally. -/
theorem foldl_proj_eq {α γ : Type} (π : SeedScanner → γ) (g : SeedScanner → α → SeedScanner)
    (hg : ∀ t a, π (g t a) = π t) :
    ∀ (l : List α) (s : SeedScanner), π (l.foldl g s) = π s := by
  intro l
  induction l with
  | nil => intro s; rfl
  | cons a t ih =>
    intro s
    rw [List.foldl_cons, ih, hg]

/-- `processDiff` does not touch the key map. -/
theorem processDiff_keys (s : SeedScanner) (d : SiacoinOutputDiff) :
    (processDiff s d).keys = s.keys := by
  unfold processDiff
  split
  · split
    · split <;> rfl
    · rfl
  · split <;> rfl

/-- `processDiff` does not touch the dust threshold. -/
theorem processDiff_dustThreshold (s : SeedScanner) (d : SiacoinOutputDiff) :
    (processDiff s d).dustThreshold = s.dustThreshold := by
  unfold processDiff
  split
  · split
    · split <;> rfl
    · rfl
  · split <;> rfl

/-- The `largestIndexSeen` loops do not touch the key map. -/
theorem updateLargestIndex_keys (s : SeedScanner) (cc : ConsensusChange) :
    (updateLargestIndex s cc).keys = s.keys := by
  have hg1 : ∀ (t : SeedScanner) (d : SiacoinOutputDiff),
      SeedScanner.keys
        (match alookup t.keys d.unlockHash with
         | some index =>
           if t.largestIndexSeen < index then { t with largestIndexSeen := index } else t
         | none => t) = t.keys := by
    intro t d
    split
    · split <;> rfl
    · rfl
  have hg2 : ∀ (t : SeedScanner) (d : SiafundOutputDiff),
      SeedScanner.keys
        (match alookup t.keys d.unlockHash with
         | some index =>
           if t.largestIndexSeen < index then { t with largestIndexSeen := index } else t
         | none => t) = t.keys := by
    intro t d
    split
    · split <;> rfl
    · rfl
  exact (foldl_proj_eq SeedScanner.keys _ hg2 _ _).trans
    (foldl_proj_eq SeedScanner.keys _ hg1 _ _)

/-- The `largestIndexSeen` loops do not touch the recorded outputs. -/
theorem updateLargestIndex_siacoinOutputs (s : SeedScanner) (cc : ConsensusChange) :
    (updateLargestIndex s cc).siacoinOutputs = s.siacoinOutputs := by
  have hg1 : ∀ (t : SeedScanner) (d : SiacoinOutputDiff),
      SeedScanner.siacoinOutputs
        (match alookup t.keys d.unlockHash with
         | some index =>
           if t.largestIndexSeen < index then { t with largestIndexSeen := index } else t
         | none => t) = t.siacoinOutputs := by
    intro t d
    split
    · split <;> rfl
    · rfl
  have hg2 : ∀ (t : SeedScanner) (d : SiafundOutputDiff),
      SeedScanner.siacoinOutputs
        (match alookup t.keys d.unlockHash with
         | some index =>
           if t.largestIndexSeen < index then { t with largestIndexSeen := index } else t
         | none => t) = t.siacoinOutputs := by
    intro t d
    split
    · split <;> rfl
    · rfl
  exact (foldl_proj_eq SeedScanner.siacoinOutputs _ hg2 _ _).trans
    (foldl_proj_eq SeedScanner.siacoinOutputs _ hg1 _ _)

/-- `ProcessConsensusChange` does not touch the key map. -/
theorem processConsensusChange_keys (s : SeedScanner) (cc : ConsensusChange) :
    (s.processConsensusChange cc).keys = s.keys := by
  unfold SeedScanner.processConsensusChange
  rw [updateLargestIndex_keys]
  exact foldl_proj_eq SeedScanner.keys processDiff processDiff_keys _ _

/-- A newly recorded output can only come from an applied diff whose
unlock hash is a known key and whose value strictly exceeds the dust
threshold. -/
theorem foldl_processDiff_records_only :
    ∀ (ds : List SiacoinOutputDiff) (s : SeedScanner) (oid : Nat),
      alookup (ds.foldl processDiff s).siacoinOutputs oid ≠ none →
      alookup s.siacoinOutputs oid ≠ none ∨
      ∃ d ∈ ds, d.apply = true ∧ d.id = oid ∧ alookup s.keys d.unlockHash ≠ none ∧
        s.dustThreshold < d.value := by
  intro ds
  induction ds with
  | nil =>
    intro s oid h
    exact Or.inl h
  | cons d ds ih =>
    intro s oid h
    rw [List.foldl_cons] at h
    rcases ih (processDiff s d) oid h with h1 | ⟨d', hd', hap, hid, hkey, hdust⟩
    · unfold processDiff at h1
      split at h1
      · rename_i happly
        split at h1
        · rename_i idx hkey
          split at h1
          · rename_i hdust
            by_cases hoid : oid = d.id
            · subst hoid
              exact Or.inr ⟨d, List.mem_cons_self _ _, happly, rfl,
                by rw [hkey]; exact fun e => Option.noConfusion e, hdust⟩
            · rw [alookup_ainsert_ne _ _ _ _ hoid] at h1
              exact Or.inl h1
          · exact Or.inl h1
        · exact Or.inl h1
      · split at h1
        · rw [alookup_adelete] at h1
          by_cases hoid : oid = d.id
          · rw [if_pos hoid] at h1
            exact absurd rfl h1
          · rw [if_neg hoid] at h1
            exact Or.inl h1
        · exact Or.inl h1
    · rw [processDiff_keys] at hkey
      rw [processDiff_dustThreshold] at hdust
      exact Or.inr ⟨d', List.mem_cons_of_mem _ hd', hap, hid, hkey, hdust⟩

/-- `alookup` after `bumpCount` at the bumped id. -/
theorem alookup_bumpCount (l : List (SID × SectorLocation)) (id : SID) (loc : SectorLocation)
    (h : alookup l id = some loc) :
    alookup (bumpCount l id) id = some { loc with count := loc.count + 1 } := by
  induction l with
  | nil => simp [alookup] at h
  | cons p t ih =>
    rw [alookup_cons] at h
    unfold bumpCount
    rw [List.map_cons, alookup_cons]
    by_cases hp : p.1 = id
    · rw [if_pos hp] at h
      injection h with h
      rw [if_pos hp, if_pos (by simp [hp])]
      simp [h]
    · rw [if_neg hp] at h
      rw [if_neg hp, if_neg (by simp [hp])]
      exact ih h

/-- C1: During startup (`newContractManager`), the sector-location index
is rebuilt only after recovery: whenever `loadSectorLocations` runs, the
settings were loaded first and the WAL was loaded next (both
successfully), `wal.load` always precedes `loadSectorLocations`, and the
WAL sync loop is spawned only after all of these; a returned (non-nil)
contract manager implies the sync loop was spawned successfully. -/
theorem startup_recovery_order : ∀ env : StartupEnv,
    (Event.loadSectorLocations ∈ (newContractManager env).trace →
      before Event.loadSettings Event.walLoad (newContractManager env).trace ∧
      before Event.walLoad Event.loadSectorLocations (newContractManager env).trace ∧
      env.loadSettingsErr = none ∧ env.walLoadErr = none) ∧
    (Event.spawnSyncLoop ∈ (newContractManager env).trace →
      before Event.loadSectorLocations Event.spawnSyncLoop (newContractManager env).trace) ∧
    ((newContractManager env).cm ≠ none →
      Event.spawnSyncLoop ∈ (newContractManager env).trace ∧ env.spawnSyncLoopErr = none) := by
  intro env
  obtain ⟨m, lg, se, wl, sp, d⟩ := env
  cases m <;> cases lg <;> cases se <;> cases wl <;> cases sp <;> cases d <;>
    simp +decide [newContractManager, before]

/-- C1 witness: in a fully successful startup, `loadSectorLocations`
runs with `wal.load` strictly before it. -/
theorem startup_recovery_order_witness :
    before Event.walLoad Event.loadSectorLocations
      (newContractManager ⟨none, none, none, none, none, false⟩).trace :=
  ((startup_recovery_order ⟨none, none, none, none, none, false⟩).1 (by decide)).2.1

/-- C2: every startup failure of `newContractManager` (persist-directory
creation, logger creation, settings load, WAL load, sync-loop spawn, or
the `erroredStartup` disruption) returns a nil contract manager with a
non-nil error wrapping the underlying failure (the returned error is
`ExtendErr` of the step error, or the disruption error itself), and the
deferred recovery closure stops the thread group, running the `afterStop`
closures registered so far in reverse order before the function
returns.  The first conjunct: the manager is nil exactly when the error
is non-nil, and the thread group is stopped exactly on failure. -/
theorem startup_failures_stop_cleanly :
    (∀ env : StartupEnv,
      ((newContractManager env).cm = none ↔ (newContractManager env).err ≠ none) ∧
      (Event.stopped ∈ (newContractManager env).trace ↔ (newContractManager env).err ≠ none)) ∧
    (∀ e lg se wl sp d, newContractManager ⟨some e, lg, se, wl, sp, d⟩ =
      ⟨[Event.depsInit, Event.register Closure.destruct, Event.mkdirAll,
        Event.runClosure Closure.destruct, Event.stopped], none,
       some (GoErr.extend "error while creating the persist directory for the contract manager" e)⟩) ∧
    (∀ e se wl sp d, newContractManager ⟨none, some e, se, wl, sp, d⟩ =
      ⟨[Event.depsInit, Event.register Closure.destruct, Event.mkdirAll, Event.newLogger,
        Event.runClosure Closure.destruct, Event.stopped], none,
       some (GoErr.extend "error while creating the logger for the contract manager" e)⟩) ∧
    (∀ e wl sp d, newContractManager ⟨none, none, some e, wl, sp, d⟩ =
      ⟨[Event.depsInit, Event.register Closure.destruct, Event.mkdirAll, Event.newLogger,
        Event.register Closure.loggerClose, Event.loadSettings,
        Event.runClosure Closure.loggerClose, Event.runClosure Closure.destruct, Event.stopped],
       none,
       some (GoErr.extend "error while loading contract manager atomic data" e)⟩) ∧
    (∀ e sp d, newContractManager ⟨none, none, none, some e, sp, d⟩ =
      ⟨[Event.depsInit, Event.register Closure.destruct, Event.mkdirAll, Event.newLogger,
        Event.register Closure.loggerClose, Event.loadSettings, Event.walLoad,
        Event.runClosure Closure.loggerClose, Event.runClosure Closure.destruct, Event.stopped],
       none,
       some (GoErr.extend "error while loading the WAL at startup" e)⟩) ∧
    (∀ e d, newContractManager ⟨none, none, none, none, some e, d⟩ =
      ⟨[Event.depsInit, Event.register Closure.destruct, Event.mkdirAll, Event.newLogger,
        Event.register Closure.loggerClose, Event.loadSettings, Event.walLoad,
        Event.register Closure.folderClose, Event.loadSectorLocations, Event.spawnSyncLoop,
        Event.runClosure Closure.folderClose, Event.runClosure Closure.loggerClose,
        Event.runClosure Closure.destruct, Event.stopped],
       none,
       some (GoErr.extend "error while spawning contract manager sync loop" e)⟩) ∧
    (newContractManager ⟨none, none, none, none, none, true⟩ =
      ⟨[Event.depsInit, Event.register Closure.destruct, Event.mkdirAll, Event.newLogger,
        Event.register Closure.loggerClose, Event.loadSettings, Event.walLoad,
        Event.register Closure.folderClose, Event.loadSectorLocations, Event.spawnSyncLoop,
        Event.disruptCheck,
        Event.runClosure Closure.folderClose, Event.runClosure Closure.loggerClose,
        Event.runClosure Closure.destruct, Event.stopped],
       none, some (GoErr.base "startup disrupted")⟩) ∧
    (newContractManager ⟨none, none, none, none, none, false⟩ =
      ⟨[Event.depsInit, Event.register Closure.destruct, Event.mkdirAll, Event.newLogger,
        Event.register Closure.loggerClose, Event.loadSettings, Event.walLoad,
        Event.register Closure.folderClose, Event.loadSectorLocations, Event.spawnSyncLoop,
        Event.disruptCheck],
       some ⟨[Closure.destruct, Closure.loggerClose, Closure.folderClose]⟩, none⟩) := by
  refine ⟨?_, fun e lg se wl sp d => rfl, fun e se wl sp d => rfl, fun e wl sp d => rfl,
          fun e sp d => rfl, fun e d => rfl, rfl, rfl⟩
  intro env
  obtain ⟨m, lg, se, wl, sp, d⟩ := env
  cases m <;> cases lg <;> cases se <;> cases wl <;> cases sp <;> cases d <;>
    simp +decide [newContractManager]

/-- C5: `newContractManager` registers `dependencies.destruct` as its
first `afterStop` closure, before the logger-close closure and the
storage-folder file-handle-close closure; since `stop()` runs `afterStop`
closures in reverse registration order, on `Close` the destruct closure
runs after the storage-folder file handles and the logger have been
closed. -/
theorem destruct_runs_after_handles_closed : ∀ env cmm,
    (newContractManager env).cm = some cmm →
    cmm.afterStops = [Closure.destruct, Closure.loggerClose, Closure.folderClose] ∧
    closeRun cmm = [Event.runClosure Closure.folderClose, Event.runClosure Closure.loggerClose,
                    Event.runClosure Closure.destruct, Event.stopped] ∧
    before (Event.register Closure.destruct) (Event.register Closure.loggerClose)
      (newContractManager env).trace ∧
    before (Event.register Closure.destruct) (Event.register Closure.folderClose)
      (newContractManager env).trace ∧
    before (Event.runClosure Closure.loggerClose) (Event.runClosure Closure.destruct)
      (closeRun cmm) ∧
    before (Event.runClosure Closure.folderClose) (Event.runClosure Closure.destruct)
      (closeRun cmm) := by
  intro env cmm h
  obtain ⟨m, lg, se, wl, sp, d⟩ := env
  cases m with
  | some e => exact Option.noConfusion h
  | none =>
  cases lg with
  | some e => exact Option.noConfusion h
  | none =>
  cases se with
  | some e => exact Option.noConfusion h
  | none =>
  cases wl with
  | some e => exact Option.noConfusion h
  | none =>
  cases sp with
  | some e => exact Option.noConfusion h
  | none =>
  cases d with
  | true => exact Option.noConfusion h
  | false =>
    have h2 : some (⟨[Closure.destruct, Closure.loggerClose, Closure.folderClose]⟩ : CMModel) =
        some cmm := h
    injection h2 with h3
    subst h3
    decide

/-- C5 witness: the successful startup yields a manager whose close path
runs the folder-close and logger-close closures before `destruct`. -/
theorem destruct_runs_after_handles_closed_witness :
    closeRun ⟨[Closure.destruct, Closure.loggerClose, Closure.folderClose]⟩ =
      [Event.runClosure Closure.folderClose, Event.runClosure Closure.loggerClose,
       Event.runClosure Closure.destruct, Event.stopped] :=
  (destruct_runs_after_handles_closed ⟨none, none, none, none, none, false⟩
    ⟨[Closure.destruct, Closure.loggerClose, Closure.folderClose]⟩ rfl).2.1

/-- C3 counterexample: the result of `AcceptTransactionSet` is not
without effect on the value `Close` returns — at a concrete failing
submission the return value differs from the one for a successful
submission, so the claim "that result has no effect on the value Close
returns" is false. -/
theorem close_returns_accept_result_counterexample :
    (hostUploaderClose (some (GoErr.base "transaction pool rejected the transaction set"))).2 ≠
      (hostUploaderClose none).2 := by
  decide

/-- C3 amended: `hostUploader.Close` performs no handling of the
submission result — the `if err != nil` statement has an empty body —
but it returns the result of `AcceptTransactionSet` unchanged as its own
return value (it is the function's return value, not discarded). -/
theorem close_returns_accept_result : ∀ acceptResult : Option GoErr,
    hostUploaderClose acceptResult =
      ([CloseEvent.sendEmptyRevision, CloseEvent.connClose, CloseEvent.acceptLastTxn],
       acceptResult) := by
  intro acceptResult
  rfl

/-- C4: in `negotiateContract` the id of the newly created file contract
is always computed as `txn.FileContractID(0)` on the built transaction,
regardless of that transaction's contents: even though the new file
contract is appended at position `length b.fileContracts` of the
transaction's file-contract list, the recorded id is the one for
index 0. -/
theorem negotiate_fcid_is_index_zero : ∀ env b fc rc,
    negotiateContract env b fc = some rc →
    ∃ txn, negotiatedTxn b fc = some txn ∧
      rc.id = FileContractID txn 0 ∧
      txn.fileContracts = b.fileContracts ++ [fc] := by
  intro env b fc rc h
  unfold negotiateContract at h
  cases hf : fundSiacoins b fc.payout with
  | none => rw [hf] at h; exact Option.noConfusion h
  | some b1 =>
    rw [hf] at h
    dsimp only at h
    by_cases hl : env.laterStepsOk
    · rw [if_pos hl] at h
      injection h with h
      subst h
      refine ⟨viewTxn (addFileContract b1 fc), by simp [negotiatedTxn, hf], rfl, ?_⟩
      have hb : b1.fileContracts = b.fileContracts := by
        unfold fundSiacoins at hf
        split at hf
        · injection hf with hf
          subst hf
          rfl
        · exact Option.noConfusion hf
      simp [viewTxn, addFileContract, hb]
    · rw [if_neg hl] at h
      exact Option.noConfusion h

/-- C4 witness: a concrete successful negotiation whose recorded
contract id is `FileContractID txn 0`. -/
theorem negotiate_fcid_is_index_zero_witness :
    ∃ txn, negotiatedTxn ⟨100, []⟩ ⟨50, 10⟩ = some txn ∧
      (⟨(⟨[⟨50, 10⟩]⟩, 0), 10⟩ : RenterFileContract).id = FileContractID txn 0 ∧
      txn.fileContracts = ([] : List FileContract) ++ [⟨50, 10⟩] :=
  negotiate_fcid_is_index_zero ⟨true⟩ ⟨100, []⟩ ⟨50, 10⟩ ⟨(⟨[⟨50, 10⟩]⟩, 0), 10⟩ rfl

/-- C10 counterexample: a host entry with price 100, collateral 1 and
freeze 1 receives weight `1 * 1 / sqrt(100) = 0` under integer
division, so the claim that every entry is assigned a *positive* weight
is false. -/
theorem entryWeight_not_positive_counterexample :
    ¬ (0 < entryWeight ⟨100, 1, 1⟩) := by
  decide

/-- C10 amended: `entryWeight` is total and never divides by zero —
each of `Price`, `Collateral` and `Freeze` that is non-positive is first
replaced by the currency value 1, so the divisor `sqrt(Price)` is at
least 1 and every host entry is assigned a well-defined *non-negative*
weight `Freeze * Collateral / sqrt(Price)` (which can be zero when
`sqrt(Price)` exceeds `Freeze * Collateral`). -/
theorem entryWeight_total_nonneg : ∀ entry : HostEntry,
    1 ≤ entryWeightDivisor entry ∧
    0 ≤ entryWeight entry ∧
    entryWeight entry =
      (if entry.freeze ≤ 0 then 1 else entry.freeze) *
        (if entry.collateral ≤ 0 then 1 else entry.collateral) / entryWeightDivisor entry := by
  intro entry
  have hp : (1 : Int) ≤ (if entry.price ≤ 0 then 1 else entry.price) := by
    split
    · exact le_refl 1
    · omega
  have hdiv : 1 ≤ entryWeightDivisor entry := by
    unfold entryWeightDivisor currencySqrt
    have h1 : 1 ≤ (if entry.price ≤ 0 then 1 else entry.price).toNat := by omega
    exact Int.ofNat_le.mpr (one_le_floorSqrt _ h1)
  refine ⟨hdiv, ?_, rfl⟩
  unfold entryWeight
  have hf : (0 : Int) ≤ (if entry.freeze ≤ 0 then 1 else entry.freeze) := by
    split
    · exact zero_le_one
    · omega
  have hc : (0 : Int) ≤ (if entry.collateral ≤ 0 then 1 else entry.collateral) := by
    split
    · exact zero_le_one
    · omega
  have hs : (0 : Int) ≤ currencySqrt (if entry.price ≤ 0 then 1 else entry.price) := by
    unfold currencySqrt
    exact Int.ofNat_nonneg _
  exact Int.ediv_nonneg (mul_nonneg hf hc) hs

/-- C9: `ProcessConsensusChange` records an applied siacoin output only
when its unlock hash is a known key and its value strictly exceeds
`dustThreshold` (first conjunct: any output id recorded that was not
recorded before comes from such a diff); an output whose value equals
`dustThreshold` exactly is never recorded (second conjunct: processing
such a diff leaves the recorded outputs unchanged); a revert diff for a
known key always deletes the output regardless of value (third
conjunct). -/
theorem processConsensusChange_records_dust_revert :
    (∀ (s : SeedScanner) (cc : ConsensusChange) (oid : Nat),
      alookup (s.processConsensusChange cc).siacoinOutputs oid ≠ none →
      alookup s.siacoinOutputs oid ≠ none ∨
      ∃ d ∈ cc.siacoinOutputDiffs, d.apply = true ∧ d.id = oid ∧
        alookup s.keys d.unlockHash ≠ none ∧ s.dustThreshold < d.value) ∧
    (∀ (s : SeedScanner) (oid uh : Nat),
      (s.processConsensusChange ⟨[⟨true, oid, uh, s.dustThreshold⟩], []⟩).siacoinOutputs =
        s.siacoinOutputs) ∧
    (∀ (s : SeedScanner) (oid uh v idx : Nat),
      alookup s.keys uh = some idx →
      alookup (s.processConsensusChange ⟨[⟨false, oid, uh, v⟩], []⟩).siacoinOutputs oid =
        none) := by
  refine ⟨?_, ?_, ?_⟩
  · intro s cc oid h
    unfold SeedScanner.processConsensusChange at h
    rw [updateLargestIndex_siacoinOutputs] at h
    exact foldl_processDiff_records_only cc.siacoinOutputDiffs s oid h
  · intro s oid uh
    unfold SeedScanner.processConsensusChange
    rw [updateLargestIndex_siacoinOutputs]
    rw [List.foldl_cons, List.foldl_nil]
    unfold processDiff
    rw [if_pos rfl]
    cases hk : alookup s.keys uh with
    | none => rfl
    | some idx =>
      dsimp only
      rw [if_neg (lt_irrefl s.dustThreshold)]
  · intro s oid uh v idx hk
    unfold SeedScanner.processConsensusChange
    rw [updateLargestIndex_siacoinOutputs]
    rw [List.foldl_cons, List.foldl_nil]
    unfold processDiff
    rw [if_neg (by simp)]
    rw [hk]
    dsimp only
    rw [alookup_adelete, if_pos rfl]

/-- C9 witness: with dust threshold 5, key map `{7 ↦ 0}` and a revert
diff for output 3 at unlock hash 7, the output is deleted. -/
theorem processConsensusChange_records_dust_revert_witness :
    alookup ((⟨5, [(7, 0)], 0, [(3, ⟨3, 9, 0⟩)]⟩ : SeedScanner).processConsensusChange
        ⟨[⟨false, 3, 7, 9⟩], []⟩).siacoinOutputs 3 = none :=
  processConsensusChange_records_dust_revert.2.2 ⟨5, [(7, 0)], 0, [(3, ⟨3, 9, 0⟩)]⟩ 3 7 9 0
    (by decide)

/-- `canonKeys` has one entry per generated index. -/
theorem canonKeys_length (kh : Nat → Nat) (m : Nat) : (canonKeys kh m).length = m := by
  simp [canonKeys]

/-- Inserting the key derived at the next index appends it: with an
injective derivation the new unlock hash is fresh. -/
theorem canonKeys_ainsert (kh : Nat → Nat) (hinj : Function.Injective kh) (m : Nat) :
    ainsert (canonKeys kh m) (kh m) m = canonKeys kh (m + 1) := by
  unfold ainsert
  rw [if_neg ?fresh]
  case fresh =>
    intro hany
    rw [List.any_eq_true] at hany
    obtain ⟨p, hp, hpk⟩ := hany
    unfold canonKeys at hp
    rw [List.mem_map] at hp
    obtain ⟨j, hj, rfl⟩ := hp
    rw [List.mem_range] at hj
    have : kh j = kh m := by exact_mod_cast of_decide_eq_true hpk
    exact absurd (hinj this) (Nat.ne_of_lt hj)
  · unfold canonKeys
    rw [List.range_succ, List.map_append]
    rfl

/-- `generateKeys` on a canonically generated key map extends it by the
next `n` indices. -/
theorem generateKeys_canonKeys (kh : Nat → Nat) (hinj : Function.Injective kh)
    (s : SeedScanner) (n m : Nat) (hm : s.keys = canonKeys kh m) :
    (s.generateKeys kh n).keys = canonKeys kh (m + n) := by
  have hnum : s.numKeys = m := by
    rw [SeedScanner.numKeys, hm, canonKeys_length]
  unfold SeedScanner.generateKeys
  dsimp only
  rw [hnum, hm]
  induction n with
  | zero => rfl
  | succ n ih =>
    rw [List.range_succ, List.foldl_append, ih, List.foldl_cons, List.foldl_nil]
    exact canonKeys_ainsert kh hinj (m + n)

/-- C8 helper: the size of the key map after `generateKeys`. -/
theorem generateKeys_numKeys (kh : Nat → Nat) (hinj : Function.Injective kh)
    (s : SeedScanner) (n m : Nat) (hm : s.keys = canonKeys kh m) :
    (s.generateKeys kh n).numKeys = m + n := by
  rw [SeedScanner.numKeys, generateKeys_canonKeys kh hinj s n m hm, canonKeys_length]

/-- The invariant of the `scan` loop: with an injective derivation and a
canonically generated key map, fuel exceeding the remaining key budget
never runs out, the key count never exceeds `maxK`, `errMaxKeys` is
returned exactly at `maxK` generated keys, and a nil return happens
exactly under the early-exit condition. -/
theorem scanLoop_spec (kh : Nat → Nat) (hinj : Function.Injective kh) (env : ScanEnv)
    (maxK : Nat) :
    ∀ (fuel iter nk : Nat) (s : SeedScanner),
      s.keys = canonKeys kh s.numKeys →
      s.numKeys + nk ≤ maxK →
      (nk = 0 → maxK ≤ s.numKeys) →
      maxK - s.numKeys < fuel →
      (scanLoop kh env maxK fuel iter nk s).1 ≠ ScanResult.outOfFuel ∧
      (scanLoop kh env maxK fuel iter nk s).2.numKeys ≤ maxK ∧
      ((scanLoop kh env maxK fuel iter nk s).1 = ScanResult.maxKeys →
        (scanLoop kh env maxK fuel iter nk s).2.numKeys = maxK) ∧
      ((scanLoop kh env maxK fuel iter nk s).1 = ScanResult.ok →
        (scanLoop kh env maxK fuel iter nk s).2.largestIndexSeen <
          (scanLoop kh env maxK fuel iter nk s).2.numKeys / 2) := by
  intro fuel
  induction fuel with
  | zero =>
    intro iter nk s hc hle h0 hf
    omega
  | succ fuel ih =>
    intro iter nk s hc hle h0 hf
    rw [scanLoop]
    by_cases hlt : s.numKeys < maxK
    case neg =>
      rw [if_neg hlt]
      dsimp only
      refine ⟨fun e => ScanResult.noConfusion e, by omega, fun _ => by omega,
        fun e => ScanResult.noConfusion e⟩
    case pos =>
      rw [if_pos hlt]
      have hnk : 0 < nk := by
        by_contra hz
        have : nk = 0 := by omega
        exact absurd (h0 this) (by omega)
      have hc1 : (s.generateKeys kh nk).keys = canonKeys kh (s.numKeys + nk) :=
        generateKeys_canonKeys kh hinj s nk s.numKeys hc
      have hn1 : (s.generateKeys kh nk).numKeys = s.numKeys + nk :=
        generateKeys_numKeys kh hinj s nk s.numKeys hc
      cases hsub : env.subscribeErr iter with
      | some e =>
        dsimp only
        refine ⟨fun e => ScanResult.noConfusion e, by omega, fun e => ScanResult.noConfusion e,
          fun e => ScanResult.noConfusion e⟩
      | none =>
        dsimp only
        have hk2 : (env.chain.foldl SeedScanner.processConsensusChange
            (s.generateKeys kh nk)).keys = (s.generateKeys kh nk).keys :=
          foldl_proj_eq SeedScanner.keys SeedScanner.processConsensusChange
            processConsensusChange_keys _ _
        have hn2 : (env.chain.foldl SeedScanner.processConsensusChange
            (s.generateKeys kh nk)).numKeys = s.numKeys + nk := by
          rw [SeedScanner.numKeys, hk2]
          exact hn1
        have hc2 : (env.chain.foldl SeedScanner.processConsensusChange
            (s.generateKeys kh nk)).keys =
            canonKeys kh (env.chain.foldl SeedScanner.processConsensusChange
              (s.generateKeys kh nk)).numKeys := by
          rw [hn2, hk2, hc1]
        by_cases hearly : (env.chain.foldl SeedScanner.processConsensusChange
            (s.generateKeys kh nk)).largestIndexSeen <
            (env.chain.foldl SeedScanner.processConsensusChange
              (s.generateKeys kh nk)).numKeys / 2
        · rw [if_pos hearly]
          dsimp only
          exact ⟨fun e => ScanResult.noConfusion e, by omega, fun e => ScanResult.noConfusion e,
            fun _ => hearly⟩
        · rw [if_neg hearly]
          apply ih
          · exact hc2
          · rw [hn2]
            split
            · omega
            · rename_i hcap
              omega
          · intro hz
            rw [hn2]
            split at hz
            · omega
            · omega
          · rw [hn2]
            omega

/-- C8: `seedScanner.scan` always terminates when the derivation yields
distinct unlock hashes: from a fresh scanner it returns nil, `errMaxKeys`
or a subscription error (never exhausting fuel `maxK + 1`); the key
count never exceeds `maxK` because batches are capped; `errMaxKeys` is
returned exactly when the loop exits with `maxK` keys generated; a nil
return means the early-exit condition held; and on every iteration
`generateKeys` adds exactly the requested number of fresh keys. -/
theorem scan_terminates (kh : Nat → Nat) (env : ScanEnv) (maxK numInit : Nat)
    (s : SeedScanner) :
    Function.Injective kh → 0 < numInit → numInit ≤ maxK → s.keys = [] →
    ((s.scan kh env maxK numInit).1 = ScanResult.ok ∨
      (s.scan kh env maxK numInit).1 = ScanResult.maxKeys ∨
      ∃ e, (s.scan kh env maxK numInit).1 = ScanResult.subError e) ∧
    (s.scan kh env maxK numInit).2.numKeys ≤ maxK ∧
    ((s.scan kh env maxK numInit).1 = ScanResult.maxKeys →
      (s.scan kh env maxK numInit).2.numKeys = maxK) ∧
    ((s.scan kh env maxK numInit).1 = ScanResult.ok →
      (s.scan kh env maxK numInit).2.largestIndexSeen <
        (s.scan kh env maxK numInit).2.numKeys / 2) ∧
    (∀ (t : SeedScanner) (n m : Nat), t.keys = canonKeys kh m →
      (t.generateKeys kh n).numKeys = m + n) := by
  intro hinj hpos hle hfresh
  have hnum : s.numKeys = 0 := by
    rw [SeedScanner.numKeys, hfresh]
    rfl
  have hc : s.keys = canonKeys kh s.numKeys := by
    rw [hfresh, hnum]
    rfl
  have hspec := scanLoop_spec kh hinj env maxK (maxK + 1) 0 numInit s hc (by omega)
    (fun hz => absurd hpos (by omega)) (by omega)
  unfold SeedScanner.scan
  refine ⟨?_, hspec.2.1, hspec.2.2.1, hspec.2.2.2, ?_⟩
  · cases hres : (scanLoop kh env maxK (maxK + 1) 0 numInit s).1 with
    | ok => exact Or.inl rfl
    | maxKeys => exact Or.inr (Or.inl rfl)
    | subError e => exact Or.inr (Or.inr ⟨e, rfl⟩)
    | outOfFuel => exact absurd hres hspec.1
  · intro t n m hm
    exact generateKeys_numKeys kh hinj t n m hm

/-- A successful probe returns an in-range free slot. -/
theorem findFreeSlot_spec (usage : List Bool) (start j : Nat)
    (h : findFreeSlot usage start = some j) :
    j < usage.length ∧ usage.getD j true = false := by
  unfold findFreeSlot at h
  have hmem := List.mem_of_find?_eq_some h
  have hpred := List.find?_some h
  constructor
  · rw [List.mem_map] at hmem
    obtain ⟨k, hk, rfl⟩ := hmem
    rw [List.mem_range] at hk
    exact Nat.mod_lt _ (by omega)
  · exact of_decide_eq_true hpred

/-- `getD` after `set` at an in-range index. -/
theorem getD_set_eq {α : Type} (l : List α) (j : Nat) (x d : α) (h : j < l.length) :
    (l.set j x).getD j d = x := by
  rw [List.getD_eq_getElem?_getD, List.getElem?_set_eq_of_lt x h]
  rfl

/-- `addSector` never writes `sectorSalt`. -/
theorem addSector_sectorSalt (st : CMState) (root data : SectorData) (st' : CMState)
    (id : SID) (h : addSector st root data = some (st', id)) :
    st'.sectorSalt = st.sectorSalt := by
  unfold addSector at h
  split at h
  · exact Option.noConfusion h
  dsimp only at h
  split at h
  · simp only [Option.some.injEq, Prod.mk.injEq] at h
    obtain ⟨h1, -⟩ := h
    subst h1
    rfl
  split at h
  · exact Option.noConfusion h
  split at h
  · exact Option.noConfusion h
  split at h
  · exact Option.noConfusion h
  simp only [Option.some.injEq, Prod.mk.injEq] at h
  obtain ⟨h1, -⟩ := h
  subst h1
  rfl

/-- `removeSector` never writes `sectorSalt`. -/
theorem removeSector_sectorSalt (st : CMState) (id : SID) (st' : CMState)
    (h : removeSector st id = some st') : st'.sectorSalt = st.sectorSalt := by
  unfold removeSector at h
  split at h
  · exact Option.noConfusion h
  split at h
  · injection h with h
    subst h
    rfl
  split at h
  · exact Option.noConfusion h
  dsimp only at h
  injection h with h
  subst h
  rfl

/-- `addStorageFolder` never writes `sectorSalt`. -/
theorem addStorageFolder_sectorSalt (st : CMState) (path : String) (cap : Nat)
    (st' : CMState) (h : addStorageFolder st path cap = some st') :
    st'.sectorSalt = st.sectorSalt := by
  unfold addStorageFolder at h
  split at h
  · exact Option.noConfusion h
  split at h
  · exact Option.noConfusion h
  injection h with h
  subst h
  rfl

/-- `relocate` never writes `sectorSalt`. -/
theorem relocate_sectorSalt (st : CMState) (fid : Nat) (p : SID × SectorLocation)
    (st' : CMState) (h : relocate st fid p = some st') : st'.sectorSalt = st.sectorSalt := by
  unfold relocate at h
  split at h
  · exact Option.noConfusion h
  split at h
  · exact Option.noConfusion h
  split at h
  · exact Option.noConfusion h
  split at h
  · exact Option.noConfusion h
  split at h
  · exact Option.noConfusion h
  dsimp only at h
  injection h with h
  subst h
  rfl

/-- Relocating a list of evacuees never writes `sectorSalt`. -/
theorem foldlM_relocate_sectorSalt (fid : Nat) :
    ∀ (l : List (SID × SectorLocation)) (st st' : CMState),
      l.foldlM (fun acc p => relocate acc fid p) st = some st' →
      st'.sectorSalt = st.sectorSalt := by
  intro l
  induction l with
  | nil =>
    intro st st' h
    injection h with h
    subst h
    rfl
  | cons p t ih =>
    intro st st' h
    rw [List.foldlM_cons] at h
    cases hr : relocate st fid p with
    | none =>
      rw [hr] at h
      exact Option.noConfusion h
    | some st1 =>
      rw [hr] at h
      exact (ih st1 st' h).trans (relocate_sectorSalt st fid p st1 hr)

/-- `shrinkFolder` never writes `sectorSalt`. -/
theorem shrinkFolder_sectorSalt (st : CMState) (fid newCap : Nat) (st' : CMState)
    (h : shrinkFolder st fid newCap = some st') : st'.sectorSalt = st.sectorSalt := by
  unfold shrinkFolder at h
  cases hf : (evacuees st fid newCap).foldlM (fun acc p => relocate acc fid p) st with
  | none =>
    rw [hf] at h
    exact Option.noConfusion h
  | some st1 =>
    rw [hf] at h
    dsimp only at h
    cases hl : alookup st1.storageFolders fid with
    | none =>
      rw [hl] at h
      exact Option.noConfusion h
    | some f =>
      rw [hl] at h
      dsimp only at h
      injection h with h
      subst h
      exact foldlM_relocate_sectorSalt fid _ st st1 hf

/-- `growFolder` never writes `sectorSalt`. -/
theorem growFolder_sectorSalt (st : CMState) (fid newCap : Nat) (st' : CMState)
    (h : growFolder st fid newCap = some st') : st'.sectorSalt = st.sectorSalt := by
  unfold growFolder at h
  split at h
  · exact Option.noConfusion h
  dsimp only at h
  injection h with h
  subst h
  rfl

/-- `resizeStorageFolder` never writes `sectorSalt`. -/
theorem resizeStorageFolder_sectorSalt (st : CMState) (fid newCap : Nat) (st' : CMState)
    (h : resizeStorageFolder st fid newCap = some st') : st'.sectorSalt = st.sectorSalt := by
  unfold resizeStorageFolder at h
  split at h
  · exact Option.noConfusion h
  split at h
  · exact Option.noConfusion h
  split at h
  · exact growFolder_sectorSalt st fid newCap st' h
  · exact shrinkFolder_sectorSalt st fid newCap st' h

/-- `removeStorageFolder` never writes `sectorSalt`. -/
theorem removeStorageFolder_sectorSalt (st : CMState) (fid : Nat) (force : Bool)
    (st' : CMState) (h : removeStorageFolder st fid force = some st') :
    st'.sectorSalt = st.sectorSalt := by
  unfold removeStorageFolder at h
  split at h
  · exact Option.noConfusion h
  split at h
  · injection h with h
    subst h
    rfl
  cases hf : (evacuees st fid 0).foldlM (fun acc p => relocate acc fid p) st with
  | none =>
    rw [hf] at h
    exact Option.noConfusion h
  | some st1 =>
    rw [hf] at h
    injection h with h
    subst h
    exact foldlM_relocate_sectorSalt fid _ st st1 hf

/-- `addSectorBatch`'s fold never writes `sectorSalt`. -/
theorem foldl_addSector_sectorSalt :
    ∀ (items : List (SectorData × SectorData)) (st : CMState),
      (items.foldl (fun acc it => ((addSector acc it.1 it.2).map Prod.fst).getD acc)
        st).sectorSalt = st.sectorSalt := by
  intro items
  induction items with
  | nil => intro st; rfl
  | cons it t ih =>
    intro st
    rw [List.foldl_cons, ih]
    cases h : addSector st it.1 it.2 with
    | none => rfl
    | some p => exact addSector_sectorSalt st it.1 it.2 p.1 p.2 h

/-- C8 witness: with the identity derivation (injective), the testing
release constants and an empty chain, a fresh scan satisfies the
termination and bound properties. -/
theorem scan_terminates_witness :
    ((SeedScanner.scan id ⟨[], fun _ => none⟩ (maxScanKeys Release.testing)
        (numInitialKeys Release.testing) ⟨0, [], 0, []⟩).1 = ScanResult.ok ∨
      (SeedScanner.scan id ⟨[], fun _ => none⟩ (maxScanKeys Release.testing)
        (numInitialKeys Release.testing) ⟨0, [], 0, []⟩).1 = ScanResult.maxKeys ∨
      ∃ e, (SeedScanner.scan id ⟨[], fun _ => none⟩ (maxScanKeys Release.testing)
        (numInitialKeys Release.testing) ⟨0, [], 0, []⟩).1 = ScanResult.subError e) ∧
    (SeedScanner.scan id ⟨[], fun _ => none⟩ (maxScanKeys Release.testing)
      (numInitialKeys Release.testing) ⟨0, [], 0, []⟩).2.numKeys ≤
        maxScanKeys Release.testing :=
  let h := scan_terminates id ⟨[], fun _ => none⟩ (maxScanKeys Release.testing)
    (numInitialKeys Release.testing) ⟨0, [], 0, []⟩ Function.injective_id (by decide)
    (by decide) rfl
  ⟨h.1, h.2.1⟩

/-- C6: after startup, no contract manager operation — sector
add/remove/read, batch add, folder add/resize/remove, the snapshot, or
`Close` — ever modifies `sectorSalt`. -/
theorem operations_preserve_sectorSalt : ∀ (op : CMOp) (st : CMState),
    (applyOp op st).sectorSalt = st.sectorSalt := by
  intro op st
  cases op with
  | addSector root data =>
    unfold applyOp
    dsimp only
    cases h : addSector st root data with
    | none => rfl
    | some p => exact addSector_sectorSalt st root data p.1 p.2 h
  | addSectorBatch items => exact foldl_addSector_sectorSalt items st
  | removeSector id =>
    unfold applyOp
    dsimp only
    cases h : removeSector st id with
    | none => rfl
    | some st1 => exact removeSector_sectorSalt st id st1 h
  | readSector id => rfl
  | addStorageFolder path cap =>
    unfold applyOp
    dsimp only
    cases h : addStorageFolder st path cap with
    | none => rfl
    | some st1 => exact addStorageFolder_sectorSalt st path cap st1 h
  | resizeStorageFolder fid newCap =>
    unfold applyOp
    dsimp only
    cases h : resizeStorageFolder st fid newCap with
    | none => rfl
    | some st1 => exact resizeStorageFolder_sectorSalt st fid newCap st1 h
  | removeStorageFolder fid force =>
    unfold applyOp
    dsimp only
    cases h : removeStorageFolder st fid force with
    | none => rfl
    | some st1 => exact removeStorageFolder_sectorSalt st fid force st1 h
  | storageFolders => rfl
  | close => rfl

/-- C7: for a payload of exactly `sectorSize` bytes whose Merkle root is
`root`, a successful `addSector(root, data)` on a well-formed state
followed by `readSector` of the returned id yields exactly `data` —
whether the sector was stored fresh or deduplicated onto an existing
slot. -/
theorem addSector_readSector_roundtrip : ∀ (st : CMState) (root data : SectorData)
    (st' : CMState) (id : SID),
    WF st → root = merkleRoot data → data.length = sectorSize →
    addSector st root data = some (st', id) →
    readSector st' id = some data := by
  intro st root data st' id hwf hroot hlen h
  unfold addSector at h
  rw [if_neg (not_not_intro hlen)] at h
  dsimp only at h
  cases hloc : alookup st.sectorLocations (sectorID st.sectorSalt root) with
  | some loc =>
    rw [hloc] at h
    simp only [Option.some.injEq, Prod.mk.injEq] at h
    obtain ⟨h1, h2⟩ := h
    subst h1
    subst h2
    obtain ⟨f, d, hfl, hslot, hid⟩ := hwf.2.2 _ _ hloc
    have hrd : root = d := by
      have hsnd := congrArg Prod.snd hid
      simp only [sectorID, merkleRoot] at hsnd
      exact hsnd
    unfold readSector
    dsimp only
    rw [alookup_bumpCount _ _ _ hloc]
    dsimp only
    rw [hfl]
    dsimp only
    rw [hslot, ← hrd, hroot]
    rfl
  | none =>
    rw [hloc] at h
    dsimp only at h
    cases hpick : pickFolder st.storageFolders (sidHash (sectorID st.sectorSalt root)) with
    | none =>
      rw [hpick] at h
      exact Option.noConfusion h
    | some fid =>
      rw [hpick] at h
      dsimp only at h
      cases hfold : alookup st.storageFolders fid with
      | none =>
        rw [hfold] at h
        exact Option.noConfusion h
      | some f =>
        rw [hfold] at h
        dsimp only at h
        cases hfree : findFreeSlot f.usage (sidHash (sectorID st.sectorSalt root)) with
        | none =>
          rw [hfree] at h
          exact Option.noConfusion h
        | some j =>
          rw [hfree] at h
          dsimp only at h
          simp only [Option.some.injEq, Prod.mk.injEq] at h
          obtain ⟨h1, h2⟩ := h
          subst h1
          subst h2
          have hj : j < f.usage.length :=
            (findFreeSlot_spec f.usage (sidHash (sectorID st.sectorSalt root)) j hfree).1
          have hlen2 : f.slots.length = f.usage.length :=
            hwf.2.1 (fid, f) (alookup_mem _ _ _ hfold)
          unfold readSector
          dsimp only
          rw [alookup_append_fresh _ _ _ hloc]
          dsimp only
          rw [alookup_aset _ _ _ f hfold]
          dsimp only
          rw [getD_set_eq f.slots j (some data) none (by omega)]

/-- C7 witness: on a well-formed one-folder state, adding the concrete
payload `[1, 2, 3, 4]` and reading the returned id back yields the
payload. -/
theorem addSector_readSector_roundtrip_witness :
    readSector
      ⟨7, 1, [(0, ⟨"f1", [false, true], [none, some [1, 2, 3, 4]], true⟩)],
       [((7, [1, 2, 3, 4]), ⟨0, 1, 1⟩)]⟩
      (7, [1, 2, 3, 4]) = some [1, 2, 3, 4] :=
  addSector_readSector_roundtrip
    ⟨7, 1, [(0, ⟨"f1", [false, false], [none, none], true⟩)], []⟩
    [1, 2, 3, 4] [1, 2, 3, 4]
    ⟨7, 1, [(0, ⟨"f1", [false, true], [none, some [1, 2, 3, 4]], true⟩)],
     [((7, [1, 2, 3, 4]), ⟨0, 1, 1⟩)]⟩
    (7, [1, 2, 3, 4])
    ⟨by decide, fun p hp => by
      rw [List.mem_singleton] at hp
      subst hp
      rfl,
     fun id loc hl => Option.noConfusion hl⟩
    rfl rfl (by decide)

end Sia
